import Mathlib

/-!
Verification development for a retrieval-augmented question-answering
program over a single markdown document (`src/index.js`).

The program's algorithmic core — the recursive character chunker, the
in-memory vector index, and the CLI answer loop — is embedded below as
executable Lean definitions.  The answer-loop orchestration (exit
sentinel, per-question try/catch, context assembly, fatal indexing
errors) is transcribed from `src/index.js`; the chunker and the vector
index live in library code that is not part of the repository's sources,
so they are modelled from the specification, as marked on each
definition.

Text is modelled as `List Char`; machine floating-point scores are
modelled as rationals.
-/

namespace Rag

/-- A piece of text, modelled as a list of characters. -/
abbrev Piece := List Char

/-- A contiguous slice of source text produced by the chunker
(`Segment` of the data model): its text, the source locator, and its
position in the original order, used for ranking tie-breaks. -/
structure Segment where
  text : Piece
  sourceLocator : Piece
  sequenceIndex : Nat
  deriving DecidableEq, Repr

/-! ## Chunker

Modelled from the spec: the recursive character splitter configured in
`src/index.js` lines 29–33 (`chunkSize: 1000`, `chunkOverlap: 200`,
`separators: ["\n\n", "\n", " ", ""]`) is library code; the algorithm
below follows §4.1 of the specification: recursive splitting by the
first occurring separator, then greedy merge-and-overlap packing. -/

/-- Does `sep` occur as a contiguous substring of `text`?  The empty
separator is taken to occur in every text (it splits between every
character). -/
def hasInfix (sep : Piece) : Piece → Bool
  | [] => sep.isEmpty
  | c :: cs => sep.isPrefixOf (c :: cs) || hasInfix sep cs

/-- Separator occurrence test used to pick the first applicable
separator (spec §4.1 step 2). -/
def occursIn (sep text : Piece) : Bool :=
  sep.isEmpty || hasInfix sep text

/-- Split `text` at every occurrence of the non-empty separator `sep`,
dropping the separator itself; `acc` holds the current piece reversed. -/
def splitOnSubAux (sep : Piece) (text : Piece) (acc : Piece) : List Piece :=
  match text with
  | [] => [acc.reverse]
  | c :: cs =>
    if sep.isPrefixOf (c :: cs) then
      acc.reverse :: splitOnSubAux sep (List.drop (sep.length - 1) cs) []
    else
      splitOnSubAux sep cs (c :: acc)
termination_by text.length
decreasing_by
  · simp only [List.length_drop, List.length_cons]
    omega
  · simp only [List.length_cons]
    omega

/-- Split `text` by `sep`: character-level when `sep` is empty,
substring splitting otherwise (spec §4.1 step 2). -/
def splitBySep (sep : Piece) (text : Piece) : List Piece :=
  if sep.isEmpty then text.map (fun c => [c]) else splitOnSubAux sep text []

/-- Recursive splitting phase (spec §4.1 steps 1–3): a text short enough
is a single piece; otherwise split by the first occurring separator and
recurse with the remaining finer separators; zero-length pieces are
filtered out.  A piece still exceeding `maxSize` when the separators are
exhausted is an indivisible unit and is kept whole. -/
def splitPieces (maxSize : Nat) : List Piece → Piece → List Piece
  | [], text => [text]
  | sep :: rest, text =>
    if text.length ≤ maxSize then [text]
    else if occursIn sep text then
      ((splitBySep sep text).filter (fun p => !p.isEmpty)).flatMap
        (fun p => splitPieces maxSize rest p)
    else
      splitPieces maxSize rest text

/-- The last `n` characters of `l` (the overlap carried into the next
window). -/
def takeRight (n : Nat) (l : Piece) : Piece :=
  l.drop (l.length - n)

/-- Greedy merge-and-overlap packing (spec §4.1 step 4, with §9's
normative reading of the window boundary): pieces are accumulated into a
buffer joined by `glue`; when the next piece would overflow `maxSize`
the buffer is closed as a segment and the next window starts from the
trailing `overlap` characters of the closed window.  When even the
shrunk carry cannot accommodate the piece, the carry is dropped and the
piece starts the next window alone; an oversized indivisible piece is
emitted whole. -/
def mergeLoop (maxSize overlap : Nat) (glue : Piece) : List Piece → Piece → List Piece
  | [], buf => if buf.isEmpty then [] else [buf]
  | p :: ps, buf =>
    let candidate := if buf.isEmpty then p else buf ++ glue ++ p
    if candidate.length ≤ maxSize then
      mergeLoop maxSize overlap glue ps candidate
    else if buf.isEmpty then
      p :: mergeLoop maxSize overlap glue ps (takeRight overlap p)
    else
      let carry := takeRight overlap buf
      let cand2 := if carry.isEmpty then p else carry ++ glue ++ p
      if cand2.length ≤ maxSize then
        buf :: mergeLoop maxSize overlap glue ps cand2
      else
        buf :: mergeLoop maxSize overlap glue ps p

/-- The first separator of `seps` that occurs in `text` (spec §4.1
step 2); defaults to the empty separator. -/
def chosenSep (seps : List Piece) (text : Piece) : Piece :=
  match seps with
  | [] => []
  | sep :: rest => if occursIn sep text then sep else chosenSep rest text

/-- Join glue for a window (spec §4.1 step 5): a single space for a
non-empty (whitespace-like) separator, direct concatenation for the
empty separator. -/
def glueFor (sep : Piece) : Piece :=
  if sep.isEmpty then [] else [' ']

/-- The chunker (spec §4.1): split into pieces, then pack with overlap.
Returns the ordered list of segment texts. -/
def chunkTexts (maxSize overlap : Nat) (seps : List Piece) (text : Piece) : List Piece :=
  mergeLoop maxSize overlap (glueFor (chosenSep seps text))
    (splitPieces maxSize seps text) []

/-- Wrap chunk texts into `Segment`s, numbering them from `i`. -/
def mkSegments (src : Piece) (i : Nat) : List Piece → List Segment
  | [] => []
  | t :: ts => ⟨t, src, i⟩ :: mkSegments src (i + 1) ts

/-- The chunker returning `Segment`s with sequence indices from 0. -/
def chunkSegments (maxSize overlap : Nat) (seps : List Piece) (src text : Piece) :
    List Segment :=
  mkSegments src 0 (chunkTexts maxSize overlap seps text)

/-- The separator hierarchy configured in `src/index.js` line 32. -/
def defaultSeps : List Piece := [['\n', '\n'], ['\n'], [' '], []]

/-! ## Vector index

Modelled from the spec: the in-memory vector store used in
`src/index.js` lines 48–56 and 100–106 is library code; the index below
follows §4.2 of the specification.  Similarity scores are rationals; the
cosine-similarity computation itself (a floating-point calculation) is
supplied as a parameter `sim`, since the ranking contract does not
depend on the particular score values. -/

/-- Errors of index construction and querying (spec §4.2). -/
inductive IndexError where
  | emptyIndex
  | dimensionMismatch
  deriving DecidableEq, Repr

/-- An immutable in-memory vector index: the entries and the common
vector dimensionality. -/
structure VectorIndex where
  entries : List (List ℚ × Segment)
  dim : Nat
  deriving Repr

/-- Modelled from the spec: `Index.build` (§4.2) — fails with
`EmptyIndex` on an empty entry sequence and with `DimensionMismatch`
when the vectors' lengths differ. -/
def buildIndex (entries : List (List ℚ × Segment)) : Except IndexError VectorIndex :=
  match entries with
  | [] => .error .emptyIndex
  | e :: rest =>
    if rest.all (fun x => x.1.length == e.1.length) then
      .ok ⟨e :: rest, e.1.length⟩
    else
      .error .dimensionMismatch

/-- A retrieval result entry: a segment with its similarity score. -/
structure Scored where
  score : ℚ
  segment : Segment
  deriving DecidableEq, Repr

/-- The ranking order of retrieval results (spec §4.2): descending by
score, ties broken by ascending `sequenceIndex`. -/
def rankRel (a b : Scored) : Prop :=
  b.score < a.score ∨
    (a.score = b.score ∧ a.segment.sequenceIndex ≤ b.segment.sequenceIndex)

instance : DecidableRel rankRel := fun a b => by
  unfold rankRel
  exact inferInstance

/-- Modelled from the spec: `Index.query` (§4.2) — fails with
`DimensionMismatch` on a query vector of the wrong length; otherwise
scores every entry with `sim`, sorts descending by score with ties
broken by ascending sequence index, and clamps to the first `k`. -/
def queryIndex (sim : List ℚ → List ℚ → ℚ) (idx : VectorIndex)
    (q : List ℚ) (k : Nat) : Except IndexError (List Scored) :=
  if q.length = idx.dim then
    .ok ((List.insertionSort rankRel
      (idx.entries.map (fun e => ⟨sim q e.1, e.2⟩))).take k)
  else
    .error .dimensionMismatch

/-! ## Answer loop

Transcribed from `src/index.js` lines 80–124: the readline loop trims
each line, compares its lowercasing against the exit sentinel, and
otherwise runs retrieval, context assembly and generation inside a
try/catch whose handler reports the error and returns to the prompt.
Adapter calls are recorded in a trace so that "the Embedder/Generator is
(not) called" is expressible. -/

/-- Strip leading and trailing whitespace (`line.trim()` in
`src/index.js` line 93). -/
def trimChars (l : Piece) : Piece :=
  ((l.dropWhile Char.isWhitespace).reverse.dropWhile Char.isWhitespace).reverse

/-- Lowercase every character (`question.toLowerCase()` in
`src/index.js` line 94). -/
def lowerChars (l : Piece) : Piece :=
  l.map Char.toLower

/-- The exit sentinel `"exit"` (`src/index.js` line 94). -/
def exitSentinel : Piece := ['e', 'x', 'i', 't']

/-- An adapter invocation observed during the processing of one line. -/
inductive CallEvent where
  | retrieveCall (question : Piece)
  | generateCall (context : Piece) (question : Piece)
  deriving DecidableEq, Repr

/-- The outcome of processing one input line. -/
inductive LineOutcome where
  | exited
  | answered (answer : Piece)
  | errored (msg : Piece)
  deriving DecidableEq, Repr

/-- A retrieval adapter: embeds a question and queries the index
(`retriever.getRelevantDocuments` in `src/index.js` line 102). -/
abbrev Retriever := Piece → Except Piece (List Segment)

/-- A generation adapter: takes the assembled context and the question
(`promptTemplate.formatMessages` + `llm.invoke`, lines 112–116). -/
abbrev Generator := Piece → Piece → Except Piece Piece

/-- The context string passed to the generator: the retrieved segment
texts in ranked order joined by a double newline
(`relevantDocs.map((doc) => doc.pageContent).join("\n\n")`,
`src/index.js` line 108). -/
def assembleContext (docs : List Segment) : Piece :=
  List.intercalate ['\n', '\n'] (docs.map Segment.text)

/-- Process one input line, transcribing the `rl.on("line", ...)`
handler of `src/index.js` lines 92–123: trim, test the exit sentinel,
otherwise retrieve, assemble the context, generate, catching any adapter
failure as a reported, non-fatal error.  Also returns the trace of
adapter calls made. -/
def processLine (retrieve : Retriever) (generate : Generator) (line : Piece) :
    LineOutcome × List CallEvent :=
  let question := trimChars line
  if lowerChars question = exitSentinel then
    (.exited, [])
  else
    match retrieve question with
    | .error e => (.errored e, [.retrieveCall question])
    | .ok docs =>
      let context := assembleContext docs
      match generate context question with
      | .error e => (.errored e, [.retrieveCall question, .generateCall context question])
      | .ok ans => (.answered ans, [.retrieveCall question, .generateCall context question])

/-- Run the answer loop over a sequence of input lines: an `exited`
outcome closes the interface (`rl.close()`, line 96) and no further
line is processed; any other outcome returns to the prompt
(`rl.prompt()`, line 123). -/
def runLoop (retrieve : Retriever) (generate : Generator) :
    List Piece → List (LineOutcome × List CallEvent)
  | [] => []
  | l :: ls =>
    match processLine retrieve generate l with
    | (.exited, tr) => [(.exited, tr)]
    | out => out :: runLoop retrieve generate ls

/-! ## Pipeline

The one-time indexing phase followed by the answer loop, transcribing
`main` of `src/index.js`: a failed download exits with status 1
(lines 20–23), a failure while embedding or building the vector store
exits with status 1 (lines 49–55), and only then is the readline loop
installed (lines 81–124). -/

/-- An embedding adapter: text to vector, or a failure. -/
abbrev Embedder := Piece → Except Piece (List ℚ)

/-- Embed every segment, stopping at the first failure
(`MemoryVectorStore.fromDocuments`' embedding of the chunks, line 50). -/
def embedAll (embed : Embedder) : List Segment → Except Piece (List (List ℚ × Segment))
  | [] => .ok []
  | s :: ss =>
    match embed s.text with
    | .error e => .error e
    | .ok v =>
      match embedAll embed ss with
      | .error e => .error e
      | .ok rest => .ok ((v, s) :: rest)

/-- The overall result of a session: a fatal exit with a status code and
diagnostic before any question is accepted, or the outcomes of the
answer loop. -/
inductive MainResult where
  | fatalExit (code : Nat) (diag : Piece)
  | session (outcomes : List (LineOutcome × List CallEvent))
  deriving DecidableEq, Repr

/-- The retriever built over the index: embed the question, query with
`k = 5` (`src/index.js` lines 101–102), drop the scores. -/
def retrieverOf (embed : Embedder) (sim : List ℚ → List ℚ → ℚ)
    (idx : VectorIndex) : Retriever := fun q =>
  match embed q with
  | .error e => .error e
  | .ok qv =>
    match queryIndex sim idx qv 5 with
    | .error _ => .error ['d', 'i', 'm']
    | .ok res => .ok (res.map Scored.segment)

/-- `main` of `src/index.js`: download, chunk with
`maxSize 1000 / overlap 200 / defaultSeps`, embed and build the index —
any failure so far is a fatal exit with status 1 — then run the answer
loop on the input lines. -/
def runPipeline (fetchRes : Except Piece Piece) (embed : Embedder)
    (sim : List ℚ → List ℚ → ℚ) (gen : Generator)
    (url : Piece) (lines : List Piece) : MainResult :=
  match fetchRes with
  | .error e => .fatalExit 1 e
  | .ok markdown =>
    let segs := mkSegments url 0 (chunkTexts 1000 200 defaultSeps markdown)
    match embedAll embed segs with
    | .error e => .fatalExit 1 e
    | .ok entries =>
      match buildIndex entries with
      | .error .emptyIndex => .fatalExit 1 ['e', 'm', 'p', 't', 'y']
      | .error .dimensionMismatch => .fatalExit 1 ['d', 'i', 'm']
      | .ok idx => .session (runLoop (retrieverOf embed sim idx) gen lines)

/-! ## Lemmas about the chunker -/

theorem takeRight_length_le (n : Nat) (l : Piece) : (takeRight n l).length ≤ n := by
  simp only [takeRight, List.length_drop]
  omega

theorem hasInfix_iff (sep : Piece) : ∀ l : Piece, hasInfix sep l = true ↔ sep <:+: l
  | [] => by
    simp [hasInfix, List.infix_nil, List.isEmpty_iff]
  | c :: cs => by
    simp only [hasInfix, Bool.or_eq_true, List.isPrefixOf_iff_prefix,
      hasInfix_iff sep cs, List.infix_cons_iff]

theorem occursIn_eq_false_iff (sep l : Piece) :
    occursIn sep l = false ↔ sep ≠ [] ∧ ¬ sep <:+: l := by
  rw [occursIn, Bool.or_eq_false_iff, List.isEmpty_eq_false,
    ← Bool.not_eq_true (hasInfix sep l), hasInfix_iff]

theorem occursIn_false_of_infix {sep p q : Piece} (hpq : p <:+: q)
    (h : occursIn sep q = false) : occursIn sep p = false := by
  rw [occursIn_eq_false_iff] at h ⊢
  exact ⟨h.1, fun hc => h.2 (hc.trans hpq)⟩

/-- A piece emitted by the splitter cannot contain the separator: the
accumulator invariant says the separator starts at no position inside
the accumulated characters. -/
theorem emitted_no_infix (sep : Piece) (hsep : sep ≠ []) (acc text : Piece)
    (hinv : ∀ w, w <+: acc → w ≠ [] → ¬ sep <+: w.reverse ++ text) :
    ¬ sep <:+: acc.reverse := by
  rintro ⟨s, t, hst⟩
  have hacc : acc = (t.reverse ++ sep.reverse) ++ s.reverse := by
    have h := congrArg List.reverse hst
    simp only [List.reverse_append, List.reverse_reverse] at h
    simp [← h]
  have hw : (t.reverse ++ sep.reverse) <+: acc := hacc ▸ List.prefix_append _ _
  have hwne : t.reverse ++ sep.reverse ≠ [] := by
    simp [hsep]
  have := hinv _ hw hwne
  apply this
  have hrev : (t.reverse ++ sep.reverse).reverse = sep ++ t := by
    simp
  rw [hrev, List.append_assoc]
  exact List.prefix_append _ _

theorem splitOnSubAux_no_infix (sep : Piece) (hsep : sep ≠ []) :
    ∀ (text acc : Piece),
      (∀ w, w <+: acc → w ≠ [] → ¬ sep <+: w.reverse ++ text) →
      ∀ p ∈ splitOnSubAux sep text acc, ¬ sep <:+: p := by
  intro text acc
  induction text, acc using splitOnSubAux.induct sep with
  | case1 acc =>
    intro hinv p hp
    simp only [splitOnSubAux] at hp
    simp at hp
    subst hp
    exact emitted_no_infix sep hsep acc [] hinv
  | case2 acc c cs hpre ih =>
    intro hinv p hp
    simp only [splitOnSubAux, if_pos hpre] at hp
    rcases List.mem_cons.mp hp with rfl | hp'
    · exact emitted_no_infix sep hsep acc (c :: cs) hinv
    · refine ih ?_ p hp'
      intro w hw hwne
      exact absurd (List.prefix_nil.mp hw) hwne
  | case3 acc c cs hpre ih =>
    intro hinv p hp
    simp only [splitOnSubAux, if_neg hpre] at hp
    refine ih ?_ p hp
    intro w hw hwne
    cases w with
    | nil => exact absurd rfl hwne
    | cons a w' =>
      obtain ⟨rfl, hw'⟩ := List.cons_prefix_cons.mp hw
      by_cases hz : w' = []
      · subst hz
        simp only [List.reverse_cons, List.reverse_nil, List.nil_append,
          List.cons_append, List.singleton_append]
        intro hc
        exact hpre (List.isPrefixOf_iff_prefix.mpr hc)
      · have := hinv w' hw' hz
        simp only [List.reverse_cons, List.append_assoc, List.singleton_append] at this ⊢
        exact this

theorem splitOnSubAux_infix (sep : Piece) :
    ∀ (text acc : Piece), ∀ p ∈ splitOnSubAux sep text acc, p <:+: acc.reverse ++ text := by
  intro text acc
  induction text, acc using splitOnSubAux.induct sep with
  | case1 acc =>
    intro p hp
    simp only [splitOnSubAux] at hp
    simp at hp
    subst hp
    simp only [List.append_nil]
    exact List.infix_refl acc.reverse
  | case2 acc c cs hpre ih =>
    intro p hp
    simp only [splitOnSubAux, if_pos hpre] at hp
    rcases List.mem_cons.mp hp with rfl | hp'
    · exact (List.prefix_append _ _).isInfix
    · have h1 := ih p hp'
      simp only [List.reverse_nil, List.nil_append] at h1
      have h2 : List.drop (sep.length - 1) cs <:+: c :: cs :=
        ((List.drop_suffix _ _).trans (List.suffix_cons c cs)).isInfix
      exact (h1.trans h2).trans (List.suffix_append _ _).isInfix
  | case3 acc c cs hpre ih =>
    intro p hp
    simp only [splitOnSubAux, if_neg hpre] at hp
    have h1 := ih p hp
    simpa [List.append_assoc] using h1

theorem splitPieces_of_le (maxSize : Nat) (seps : List Piece) (text : Piece)
    (h : text.length ≤ maxSize) : splitPieces maxSize seps text = [text] := by
  cases seps with
  | nil => rfl
  | cons s rest => simp [splitPieces, h]

theorem splitPieces_infix (maxSize : Nat) :
    ∀ (seps : List Piece) (text p : Piece), p ∈ splitPieces maxSize seps text → p <:+: text
  | [], text, p, h => by
    simp only [splitPieces, List.mem_singleton] at h
    subst h
    exact List.infix_refl _
  | sep :: rest, text, p, h => by
    by_cases hle : text.length ≤ maxSize
    · simp only [splitPieces, if_pos hle, List.mem_singleton] at h
      subst h
      exact List.infix_refl _
    · by_cases hocc : occursIn sep text = true
      · simp only [splitPieces, if_neg hle, if_pos hocc, List.mem_flatMap,
          List.mem_filter] at h
        obtain ⟨q, ⟨hq, _⟩, hpq⟩ := h
        have h1 : p <:+: q := splitPieces_infix maxSize rest q p hpq
        have h2 : q <:+: text := by
          unfold splitBySep at hq
          split at hq
          · obtain ⟨c, hc, rfl⟩ := List.mem_map.mp hq
            obtain ⟨s, t, rfl⟩ := List.mem_iff_append.mp hc
            exact ⟨s, t, by simp⟩
          · simpa using splitOnSubAux_infix sep text [] q hq
        exact h1.trans h2
      · simp only [splitPieces, if_neg hle, if_neg hocc] at h
        exact splitPieces_infix maxSize rest text p h

/-- An oversized piece surviving the splitting phase is indivisible: no
separator of the hierarchy occurs in it. -/
theorem splitPieces_oversized (maxSize : Nat) (hmax : 0 < maxSize) :
    ∀ (seps : List Piece) (text p : Piece),
      p ∈ splitPieces maxSize seps text → maxSize < p.length →
      ∀ sep ∈ seps, occursIn sep p = false
  | [], _, _, _, _, sep, hsep => by cases hsep
  | s :: rest, text, p, hp, hlen, sep, hsep => by
    by_cases hle : text.length ≤ maxSize
    · simp only [splitPieces, if_pos hle, List.mem_singleton] at hp
      subst hp
      omega
    · by_cases hocc : occursIn s text = true
      · simp only [splitPieces, if_neg hle, if_pos hocc, List.mem_flatMap,
          List.mem_filter] at hp
        obtain ⟨q, ⟨hq, _⟩, hpq⟩ := hp
        rcases List.mem_cons.mp hsep with rfl | hsep'
        · by_cases hsnil : sep = []
          · subst hsnil
            simp only [splitBySep, List.isEmpty_nil, if_pos, List.mem_map] at hq
            obtain ⟨c, _, rfl⟩ := hq
            rw [splitPieces_of_le maxSize rest [c] (by simpa using hmax)] at hpq
            simp only [List.mem_singleton] at hpq
            subst hpq
            simp at hlen
            omega
          · have hq' : q ∈ splitOnSubAux sep text [] := by
              unfold splitBySep at hq
              rw [if_neg (by simpa [List.isEmpty_iff] using hsnil)] at hq
              exact hq
            have hnoinf : ¬ sep <:+: q :=
              splitOnSubAux_no_infix sep hsnil text []
                (fun w hw hwne => absurd (List.prefix_nil.mp hw) hwne) q hq'
            have hpinf : p <:+: q := splitPieces_infix maxSize rest q p hpq
            rw [occursIn_eq_false_iff]
            exact ⟨hsnil, fun hc => hnoinf (hc.trans hpinf)⟩
        · exact splitPieces_oversized maxSize hmax rest q p hpq hlen sep hsep'
      · simp only [splitPieces, if_neg hle, if_neg hocc] at hp
        rcases List.mem_cons.mp hsep with rfl | hsep'
        · have hinf : p <:+: text := splitPieces_infix maxSize rest text p hp
          exact occursIn_false_of_infix hinf (Bool.not_eq_true _ ▸ hocc)
        · exact splitPieces_oversized maxSize hmax rest text p hp hlen sep hsep'

/-- The merge phase invariant: every produced window either respects the
size bound or is one of the supplied pieces, kept whole. -/
theorem mergeLoop_mem (maxSize overlap : Nat) (glue : Piece) (P : List Piece)
    (hov : overlap ≤ maxSize) :
    ∀ (L : List Piece) (buf : Piece), (∀ p ∈ L, p ∈ P) →
      buf.length ≤ maxSize ∨ buf ∈ P →
      ∀ s ∈ mergeLoop maxSize overlap glue L buf, s.length ≤ maxSize ∨ s ∈ P := by
  intro L
  induction L with
  | nil =>
    intro buf _ hbuf s hs
    simp only [mergeLoop] at hs
    split at hs
    · cases hs
    · rw [List.mem_singleton] at hs
      subst hs
      exact hbuf
  | cons p ps ih =>
    intro buf hL hbuf s hs
    have hLp : ∀ q ∈ ps, q ∈ P := fun q hq => hL q (List.mem_cons_of_mem _ hq)
    have hpP : p ∈ P := hL p (List.mem_cons_self _ _)
    simp only [mergeLoop] at hs
    by_cases hcand : (if buf.isEmpty then p else buf ++ glue ++ p).length ≤ maxSize
    · rw [if_pos hcand] at hs
      exact ih _ hLp (Or.inl hcand) s hs
    · rw [if_neg hcand] at hs
      by_cases hbe : buf.isEmpty
      · rw [if_pos hbe] at hs
        rcases List.mem_cons.mp hs with rfl | hs'
        · exact Or.inr hpP
        · exact ih _ hLp (Or.inl ((takeRight_length_le _ _).trans hov)) s hs'
      · rw [if_neg hbe] at hs
        by_cases hc2 : (if (takeRight overlap buf).isEmpty then p
            else takeRight overlap buf ++ glue ++ p).length ≤ maxSize
        · rw [if_pos hc2] at hs
          rcases List.mem_cons.mp hs with rfl | hs'
          · exact hbuf
          · exact ih _ hLp (Or.inl hc2) s hs'
        · rw [if_neg hc2] at hs
          rcases List.mem_cons.mp hs with rfl | hs'
          · exact hbuf
          · exact ih _ hLp (Or.inr hpP) s hs'

/-- Every chunk text either respects the size bound or is a
splitting-phase piece. -/
theorem chunkTexts_mem (maxSize overlap : Nat) (hov : overlap ≤ maxSize)
    (seps : List Piece) (text : Piece) :
    ∀ s ∈ chunkTexts maxSize overlap seps text,
      s.length ≤ maxSize ∨ s ∈ splitPieces maxSize seps text := by
  intro s hs
  exact mergeLoop_mem maxSize overlap _ _ hov _ [] (fun p hp => hp)
    (Or.inl (by simp)) s hs

theorem mkSegments_text_mem (src : Piece) :
    ∀ (i : Nat) (ts : List Piece) (seg : Segment),
      seg ∈ mkSegments src i ts → seg.text ∈ ts
  | _, [], _, h => by cases h
  | i, t :: ts, seg, h => by
    rcases List.mem_cons.mp h with rfl | h'
    · exact List.mem_cons_self _ _
    · exact List.mem_cons_of_mem _ (mkSegments_text_mem src (i + 1) ts seg h')

/-! ## Claim C1 -/

/-- **C1**: for every input text and valid configuration
(`maxSize > 0`, `0 ≤ overlap < maxSize`), every Segment returned by the
chunker has text length ≤ `maxSize`, except a Segment that consists of a
single indivisible unit longer than `maxSize` — a piece of the splitting
phase in which no separator of the hierarchy occurs — which is kept
whole (it appears verbatim among the splitting-phase pieces) rather than
truncated. -/
theorem c1_segment_size_invariant (maxSize overlap : Nat) (seps : List Piece)
    (src text : Piece) (hmax : 0 < maxSize) (hov : overlap < maxSize) :
    ∀ seg ∈ chunkSegments maxSize overlap seps src text,
      seg.text.length ≤ maxSize ∨
        (maxSize < seg.text.length ∧
         seg.text ∈ splitPieces maxSize seps text ∧
         ∀ sep ∈ seps, occursIn sep seg.text = false) := by
  intro seg hseg
  have ht : seg.text ∈ chunkTexts maxSize overlap seps text :=
    mkSegments_text_mem src 0 _ seg hseg
  rcases chunkTexts_mem maxSize overlap (Nat.le_of_lt hov) seps text seg.text ht with h | h
  · exact Or.inl h
  · by_cases hlt : seg.text.length ≤ maxSize
    · exact Or.inl hlt
    · have hlt' : maxSize < seg.text.length := Nat.lt_of_not_le hlt
      exact Or.inr ⟨hlt', h, splitPieces_oversized maxSize hmax seps text seg.text h hlt'⟩

/-- Witness for C1: a concrete run with `maxSize = 3`, `overlap = 1` and
a text containing the indivisible 4-character token `abcd`, which is
kept whole as its own oversized segment. -/
theorem c1_segment_size_invariant_witness :
    0 < 3 ∧ 1 < 3 ∧
    ∀ seg ∈ chunkSegments 3 1 [[' ']] [] ['a', 'b', 'c', 'd', ' ', 'e', 'f'],
      seg.text.length ≤ 3 ∨
        (3 < seg.text.length ∧
         seg.text ∈ splitPieces 3 [[' ']] ['a', 'b', 'c', 'd', ' ', 'e', 'f'] ∧
         ∀ sep ∈ [[' ']], occursIn sep seg.text = false) :=
  ⟨by decide, by decide,
   c1_segment_size_invariant 3 1 [[' ']] [] ['a', 'b', 'c', 'd', ' ', 'e', 'f']
     (by decide) (by decide)⟩

/-! ## Claim C8 -/

/-- **C8**: chunking is a deterministic function — two runs on identical
`(text, maxSize, overlap, separators)` produce byte-identical segment
sequences.  The embedding is a pure function of its inputs: no
randomness and no locale dependence exist in the model. -/
theorem c8_chunk_deterministic (maxSize overlap : Nat) (seps : List Piece)
    (src t₁ t₂ : Piece) (h : t₁ = t₂) :
    chunkSegments maxSize overlap seps src t₁ = chunkSegments maxSize overlap seps src t₂ := by
  rw [h]

/-- Witness for C8 at a concrete input. -/
theorem c8_chunk_deterministic_witness :
    chunkSegments 1000 200 defaultSeps [] ['h', 'i']
      = chunkSegments 1000 200 defaultSeps [] ['h', 'i'] :=
  c8_chunk_deterministic 1000 200 defaultSeps [] ['h', 'i'] ['h', 'i'] rfl

/-! ## Demonstration adapters used by witnesses -/

/-- A concrete segment used by witnesses. -/
def demoSegment : Segment := ⟨['d', 'o', 'c'], ['u'], 0⟩

/-- A concrete retriever: fails on the question `bad`, otherwise returns
one segment. -/
def demoRetrieve : Retriever := fun q =>
  if q = ['b', 'a', 'd'] then .error ['E'] else .ok [demoSegment]

/-- A concrete generator that always answers `ok`. -/
def demoGenerate : Generator := fun _ _ => .ok ['o', 'k']

/-- A concrete embedder producing a fixed one-dimensional vector. -/
def demoEmbed : Embedder := fun _ => .ok [(0 : ℚ)]

/-- A concrete similarity function assigning every pair score zero. -/
def simZero : List ℚ → List ℚ → ℚ := fun _ _ => 0

/-! ## Claim C2 -/

/-- **C2**: an input line whose trimmed text equals the exit sentinel
`exit` case-insensitively makes the loop exit: the outcome is `exited`,
no adapter is called (the call trace is empty), and no further input
line is processed. -/
theorem c2_exit_sentinel (retrieve : Retriever) (generate : Generator)
    (line : Piece) (rest : List Piece)
    (h : lowerChars (trimChars line) = exitSentinel) :
    processLine retrieve generate line = (.exited, []) ∧
    runLoop retrieve generate (line :: rest) = [(.exited, [])] := by
  have hp : processLine retrieve generate line = (.exited, []) := by
    unfold processLine
    rw [if_pos h]
  refine ⟨hp, ?_⟩
  rw [runLoop, hp]

/-- Witness for C2 on the line `"  Exit  "` followed by another line
that is never processed. -/
theorem c2_exit_sentinel_witness :
    lowerChars (trimChars [' ', ' ', 'E', 'x', 'i', 't', ' ', ' ']) = exitSentinel ∧
    processLine demoRetrieve demoGenerate [' ', ' ', 'E', 'x', 'i', 't', ' ', ' ']
      = (.exited, []) ∧
    runLoop demoRetrieve demoGenerate
      [[' ', ' ', 'E', 'x', 'i', 't', ' ', ' '], ['h', 'i']] = [(.exited, [])] :=
  ⟨by decide,
   (c2_exit_sentinel demoRetrieve demoGenerate _ [['h', 'i']] (by decide)).1,
   (c2_exit_sentinel demoRetrieve demoGenerate _ [['h', 'i']] (by decide)).2⟩

/-! ## Claim C5 -/

/-- **C5**: a failure during a question's processing is caught at the
loop boundary and reported as a non-fatal `errored` outcome; the loop
continues, and a subsequent valid question in the same session still
produces an answer. -/
theorem c5_error_nonfatal (retrieve : Retriever) (generate : Generator)
    (l₁ l₂ : Piece) (rest : List Piece) (m a : Piece) (tr₁ tr₂ : List CallEvent)
    (h₁ : processLine retrieve generate l₁ = (.errored m, tr₁))
    (h₂ : processLine retrieve generate l₂ = (.answered a, tr₂)) :
    runLoop retrieve generate (l₁ :: l₂ :: rest)
      = (.errored m, tr₁) :: (.answered a, tr₂) :: runLoop retrieve generate rest := by
  rw [runLoop, h₁, runLoop, h₂]

/-- Witness for C5: the question `bad` fails at retrieval, the following
question `hi` is still answered. -/
theorem c5_error_nonfatal_witness :
    processLine demoRetrieve demoGenerate ['b', 'a', 'd']
      = (.errored ['E'], [.retrieveCall ['b', 'a', 'd']]) ∧
    processLine demoRetrieve demoGenerate ['h', 'i']
      = (.answered ['o', 'k'],
         [.retrieveCall ['h', 'i'], .generateCall ['d', 'o', 'c'] ['h', 'i']]) ∧
    runLoop demoRetrieve demoGenerate [['b', 'a', 'd'], ['h', 'i']]
      = [(.errored ['E'], [.retrieveCall ['b', 'a', 'd']]),
         (.answered ['o', 'k'],
          [.retrieveCall ['h', 'i'], .generateCall ['d', 'o', 'c'] ['h', 'i']])] :=
  ⟨by decide, by decide,
   c5_error_nonfatal demoRetrieve demoGenerate ['b', 'a', 'd'] ['h', 'i'] [] _ _ _ _
     (by decide) (by decide)⟩

/-! ## Claim C9 -/

/-- The specification's description of the context string, written from
its words for comparison: the segment texts in ranked order with exactly
one blank line (double newline) between consecutive texts and nothing
else. -/
def joinBlankLine : List Piece → Piece
  | [] => []
  | [t] => t
  | t :: ts => t ++ ['\n', '\n'] ++ joinBlankLine ts

theorem intercalate_eq_joinBlankLine : ∀ ts : List Piece,
    List.intercalate ['\n', '\n'] ts = joinBlankLine ts
  | [] => by simp [List.intercalate, joinBlankLine]
  | [t] => by simp [List.intercalate, joinBlankLine]
  | t :: t' :: ts => by
    have ih := intercalate_eq_joinBlankLine (t' :: ts)
    rw [List.intercalate] at ih ⊢
    simp only [List.intersperse_cons_cons, List.flatten_cons, joinBlankLine]
    rw [← ih]
    simp [List.intercalate, List.append_assoc]

/-- **C9**: for every answered question, the context passed to the
Generator is exactly the retrieved segments' texts, in ranked order,
joined with one blank line between consecutive texts, and contains
nothing else (no scores or metadata). -/
theorem c9_context_assembly (retrieve : Retriever) (generate : Generator)
    (line : Piece) (docs : List Segment)
    (hx : lowerChars (trimChars line) ≠ exitSentinel)
    (hr : retrieve (trimChars line) = .ok docs) :
    (processLine retrieve generate line).2 =
      [.retrieveCall (trimChars line),
       .generateCall (joinBlankLine (docs.map Segment.text)) (trimChars line)] := by
  unfold processLine
  rw [if_neg hx, hr]
  have hctx : assembleContext docs = joinBlankLine (docs.map Segment.text) := by
    rw [assembleContext, intercalate_eq_joinBlankLine]
  rw [← hctx]
  cases hgen : generate (assembleContext docs) (trimChars line) <;> simp [hgen]

/-- Witness for C9 on the question `hi` retrieving one segment. -/
theorem c9_context_assembly_witness :
    lowerChars (trimChars ['h', 'i']) ≠ exitSentinel ∧
    demoRetrieve (trimChars ['h', 'i']) = .ok [demoSegment] ∧
    (processLine demoRetrieve demoGenerate ['h', 'i']).2 =
      [.retrieveCall (trimChars ['h', 'i']),
       .generateCall (joinBlankLine ([demoSegment].map Segment.text))
         (trimChars ['h', 'i'])] :=
  ⟨by decide, by rfl,
   c9_context_assembly demoRetrieve demoGenerate ['h', 'i'] [demoSegment]
     (by decide) (by rfl)⟩

/-! ## Claim C10 -/

/-- **C10**: a line that trims to the empty string is not the exit
sentinel and is still treated as a question: the loop does not exit, the
retriever is invoked on the empty question, and when retrieval succeeds
the Generator is invoked on the empty question as well. -/
theorem c10_empty_question (retrieve : Retriever) (generate : Generator)
    (line : Piece) (h : trimChars line = []) :
    (processLine retrieve generate line).1 ≠ .exited ∧
    (processLine retrieve generate line).2.head? = some (.retrieveCall []) ∧
    ∀ docs, retrieve [] = .ok docs →
      (processLine retrieve generate line).2 =
        [.retrieveCall [], .generateCall (assembleContext docs) []] := by
  have hx : lowerChars (trimChars line) ≠ exitSentinel := by
    rw [h]
    decide
  unfold processLine
  rw [if_neg hx, h]
  cases hr : retrieve [] with
  | error e =>
    refine ⟨by simp, by simp, ?_⟩
    intro docs hdocs
    exact absurd hdocs (by simp)
  | ok docs =>
    cases hgen : generate (assembleContext docs) [] with
    | error e =>
      refine ⟨by simp [hgen], by simp [hgen], ?_⟩
      intro docs' hdocs
      injection hdocs with hd
      subst hd
      simp [hgen]
    | ok ans =>
      refine ⟨by simp [hgen], by simp [hgen], ?_⟩
      intro docs' hdocs
      injection hdocs with hd
      subst hd
      simp [hgen]

/-- Witness for C10 on a line of two spaces. -/
theorem c10_empty_question_witness :
    trimChars [' ', ' '] = [] ∧
    (processLine demoRetrieve demoGenerate [' ', ' ']).1 ≠ .exited ∧
    (processLine demoRetrieve demoGenerate [' ', ' ']).2.head?
      = some (.retrieveCall []) ∧
    (processLine demoRetrieve demoGenerate [' ', ' ']).2 =
      [.retrieveCall [], .generateCall (assembleContext [demoSegment]) []] :=
  ⟨by decide,
   (c10_empty_question demoRetrieve demoGenerate [' ', ' '] (by decide)).1,
   (c10_empty_question demoRetrieve demoGenerate [' ', ' '] (by decide)).2.1,
   (c10_empty_question demoRetrieve demoGenerate [' ', ' '] (by decide)).2.2
     [demoSegment] (by rfl)⟩

/-! ## Claim C3 -/

instance : IsTotal Scored rankRel := by
  constructor
  intro a b
  rcases lt_trichotomy a.score b.score with h | h | h
  · exact Or.inr (Or.inl h)
  · rcases Nat.le_total a.segment.sequenceIndex b.segment.sequenceIndex with hs | hs
    · exact Or.inl (Or.inr ⟨h, hs⟩)
    · exact Or.inr (Or.inr ⟨h.symm, hs⟩)
  · exact Or.inl (Or.inl h)

instance : IsTrans Scored rankRel := by
  constructor
  intro a b c hab hbc
  rcases hab with h₁ | ⟨e₁, s₁⟩
  · rcases hbc with h₂ | ⟨e₂, s₂⟩
    · exact Or.inl (h₂.trans h₁)
    · exact Or.inl (e₂ ▸ h₁)
  · rcases hbc with h₂ | ⟨e₂, s₂⟩
    · exact Or.inl (e₁.symm ▸ h₂)
    · exact Or.inr ⟨e₁.trans e₂, s₁.trans s₂⟩

/-- **C3**: every retrieval result returned by the vector index is
sorted in descending order of similarity score, with ties broken by
ascending `sequenceIndex` (`rankRel`), making the ranking
deterministic. -/
theorem c3_query_sorted (sim : List ℚ → List ℚ → ℚ) (idx : VectorIndex)
    (q : List ℚ) (k : Nat) (res : List Scored)
    (h : queryIndex sim idx q k = .ok res) :
    List.Sorted rankRel res := by
  unfold queryIndex at h
  split at h
  · injection h with h'
    subst h'
    exact List.Pairwise.sublist (List.take_sublist _ _)
      (List.sorted_insertionSort rankRel _)
  · cases h

/-- A two-entry index used by the C3 witness: both entries score zero,
so the tie is broken by the sequence index. -/
def demoIndex : VectorIndex :=
  ⟨[([(0 : ℚ)], ⟨['a'], ['u'], 0⟩), ([(0 : ℚ)], ⟨['b'], ['u'], 1⟩)], 1⟩

/-- Witness for C3: a concrete query whose two results tie on score and
are ordered by ascending sequence index. -/
theorem c3_query_sorted_witness :
    queryIndex simZero demoIndex [(0 : ℚ)] 5
      = .ok [⟨0, ⟨['a'], ['u'], 0⟩⟩, ⟨0, ⟨['b'], ['u'], 1⟩⟩] ∧
    List.Sorted rankRel [(⟨0, ⟨['a'], ['u'], 0⟩⟩ : Scored), ⟨0, ⟨['b'], ['u'], 1⟩⟩] :=
  ⟨by rfl, c3_query_sorted simZero demoIndex [(0 : ℚ)] 5 _ (by rfl)⟩

/-! ## Claim C4 -/

/-- **C4**: building the vector index from an empty entry sequence fails
with `EmptyIndex`, and in the pipeline this failure is a fatal exit
surfaced before the answer loop starts, so no question is ever answered
from an empty index. -/
theorem c4_empty_index (embed : Embedder) (sim : List ℚ → List ℚ → ℚ)
    (gen : Generator) (url : Piece) (lines : List Piece) (markdown : Piece)
    (hchunk : chunkTexts 1000 200 defaultSeps markdown = []) :
    buildIndex [] = .error .emptyIndex ∧
    runPipeline (.ok markdown) embed sim gen url lines
      = .fatalExit 1 ['e', 'm', 'p', 't', 'y'] ∧
    ∀ outs, runPipeline (.ok markdown) embed sim gen url lines ≠ .session outs := by
  have hrun : runPipeline (.ok markdown) embed sim gen url lines
      = .fatalExit 1 ['e', 'm', 'p', 't', 'y'] := by
    simp only [runPipeline]
    rw [hchunk]
    rfl
  refine ⟨rfl, hrun, ?_⟩
  intro outs hc
  rw [hrun] at hc
  cases hc

/-- Witness for C4: the empty document chunks to no segments and the
session exits fatally before any question is read. -/
theorem c4_empty_index_witness :
    chunkTexts 1000 200 defaultSeps [] = [] ∧
    buildIndex [] = .error .emptyIndex ∧
    runPipeline (.ok []) demoEmbed simZero demoGenerate ['u'] [['h', 'i']]
      = .fatalExit 1 ['e', 'm', 'p', 't', 'y'] :=
  ⟨by rfl,
   (c4_empty_index demoEmbed simZero demoGenerate ['u'] [['h', 'i']] [] (by rfl)).1,
   (c4_empty_index demoEmbed simZero demoGenerate ['u'] [['h', 'i']] [] (by rfl)).2.1⟩

/-! ## Claim C7 -/

/-- **C7**: any failure during the one-time indexing phase — source
fetch failure, embedding error, or an index-construction error
(dimension mismatch or empty document) — terminates the session with a
nonzero (1) exit status, and the answer loop is never entered, so no
question is ever accepted. -/
theorem c7_indexing_fatal (fetchRes : Except Piece Piece) (embed : Embedder)
    (sim : List ℚ → List ℚ → ℚ) (gen : Generator) (url : Piece) (lines : List Piece)
    (h : (∃ e, fetchRes = .error e) ∨
         (∃ md e, fetchRes = .ok md ∧
            embedAll embed (mkSegments url 0 (chunkTexts 1000 200 defaultSeps md))
              = .error e) ∨
         (∃ md entries ie, fetchRes = .ok md ∧
            embedAll embed (mkSegments url 0 (chunkTexts 1000 200 defaultSeps md))
              = .ok entries ∧
            buildIndex entries = .error ie)) :
    (∃ d, runPipeline fetchRes embed sim gen url lines = .fatalExit 1 d) ∧
    ∀ outs, runPipeline fetchRes embed sim gen url lines ≠ .session outs := by
  have hfatal : ∃ d, runPipeline fetchRes embed sim gen url lines = .fatalExit 1 d := by
    rcases h with ⟨e, rfl⟩ | ⟨md, e, rfl, hemb⟩ | ⟨md, entries, ie, rfl, hemb, hbuild⟩
    · exact ⟨e, rfl⟩
    · refine ⟨e, ?_⟩
      simp only [runPipeline]
      rw [hemb]
    · cases ie <;> simp only [runPipeline, hemb, hbuild] <;> exact ⟨_, rfl⟩
  refine ⟨hfatal, ?_⟩
  intro outs hc
  obtain ⟨d, hd⟩ := hfatal
  rw [hd] at hc
  cases hc

/-- An embedder that always fails, for the C7 witness. -/
def failEmbed : Embedder := fun _ => .error ['E', 'M', 'B']

/-- Witness for C7: a failed download and, separately, an embedding
failure on a nonempty document both exit fatally with status 1. -/
theorem c7_indexing_fatal_witness :
    ((∃ d, runPipeline (.error ['4', '0', '4']) demoEmbed simZero demoGenerate
        ['u'] [['h', 'i']] = .fatalExit 1 d) ∧
      ∀ outs, runPipeline (.error ['4', '0', '4']) demoEmbed simZero demoGenerate
        ['u'] [['h', 'i']] ≠ .session outs) ∧
    ((∃ d, runPipeline (.ok ['d', 'o', 'c']) failEmbed simZero demoGenerate
        ['u'] [['h', 'i']] = .fatalExit 1 d) ∧
      ∀ outs, runPipeline (.ok ['d', 'o', 'c']) failEmbed simZero demoGenerate
        ['u'] [['h', 'i']] ≠ .session outs) :=
  ⟨c7_indexing_fatal (.error ['4', '0', '4']) demoEmbed simZero demoGenerate
     ['u'] [['h', 'i']] (Or.inl ⟨['4', '0', '4'], rfl⟩),
   c7_indexing_fatal (.ok ['d', 'o', 'c']) failEmbed simZero demoGenerate
     ['u'] [['h', 'i']] (Or.inr (Or.inl ⟨['d', 'o', 'c'], ['E', 'M', 'B'], rfl, by rfl⟩))⟩

/-! ## Claim C6 -/

theorem flatMap_replicate_singleton {α β : Type} (f : α → List β) (a : α) (b : β)
    (hf : f a = [b]) : ∀ n, (List.replicate n a).flatMap f = List.replicate n b
  | 0 => by simp
  | n + 1 => by
    rw [List.replicate_succ, List.flatMap_cons, hf,
      flatMap_replicate_singleton f a b hf n]
    rfl

set_option maxRecDepth 4000 in
/-- On the all-`A` scenario text the splitting phase yields 1500
single-character pieces. -/
theorem splitPieces_scenario :
    splitPieces 1000 [[]] (List.replicate 1500 'A') = List.replicate 1500 ['A'] := by
  rw [splitPieces, if_neg (by rw [List.length_replicate]; omega),
    if_pos (show occursIn [] (List.replicate 1500 'A') = true from rfl)]
  have hsplit : splitBySep [] (List.replicate 1500 'A') = List.replicate 1500 ['A'] := by
    rw [splitBySep, if_pos (show ([] : Piece).isEmpty = true from rfl), List.map_replicate]
  rw [hsplit, List.filter_replicate,
    if_pos (show ((fun p => !List.isEmpty p) (['A'] : Piece)) = true from rfl)]
  exact flatMap_replicate_singleton _ _ _ rfl 1500

/-- Growing phase of the merge on identical single-character pieces with
empty glue: while the buffer stays within `maxSize` each piece extends
it by one character. -/
theorem mergeLoop_grow (maxSize overlap : Nat) (c : Char) :
    ∀ (k n b : Nat), b + k ≤ maxSize →
      mergeLoop maxSize overlap [] (List.replicate (k + n) [c]) (List.replicate b c)
        = mergeLoop maxSize overlap [] (List.replicate n [c]) (List.replicate (b + k) c)
  | 0, n, b, _ => by rw [Nat.zero_add, Nat.add_zero]
  | k + 1, n, b, h => by
    rw [show k + 1 + n = (k + n) + 1 by omega, List.replicate_succ]
    simp only [mergeLoop]
    have hcand : (if (List.replicate b c).isEmpty then [c]
        else List.replicate b c ++ [] ++ [c]) = List.replicate (b + 1) c := by
      cases b with
      | zero => simp
      | succ b' =>
        rw [if_neg (by simp [List.isEmpty_iff, List.replicate_eq_nil_iff]),
          List.append_nil, ← List.replicate_succ']
    rw [hcand, if_pos (by rw [List.length_replicate]; omega),
      show b + (k + 1) = (b + 1) + k by omega]
    exact mergeLoop_grow maxSize overlap c k n (b + 1) (by omega)

/-- Growing phase started from the empty buffer. -/
theorem mergeLoop_grow_nil (maxSize overlap : Nat) (c : Char) (k n : Nat)
    (h : k ≤ maxSize) :
    mergeLoop maxSize overlap [] (List.replicate (k + n) [c]) []
      = mergeLoop maxSize overlap [] (List.replicate n [c]) (List.replicate k c) := by
  have hg := mergeLoop_grow maxSize overlap c k n 0 (by omega)
  rw [List.replicate_zero, Nat.zero_add] at hg
  exact hg

/-- Overflow step of the merge: a full buffer is closed as a segment and
the next window starts from the `overlap`-character carry plus the
piece that did not fit. -/
theorem mergeLoop_overflow (maxSize overlap : Nat) (c : Char) (n : Nat)
    (hov0 : 0 < overlap) (hovlt : overlap < maxSize) :
    mergeLoop maxSize overlap [] (List.replicate (n + 1) [c]) (List.replicate maxSize c)
      = List.replicate maxSize c ::
        mergeLoop maxSize overlap [] (List.replicate n [c])
          (List.replicate (overlap + 1) c) := by
  have hmax : 0 < maxSize := hov0.trans hovlt
  rw [List.replicate_succ]
  simp only [mergeLoop]
  have hbe : ¬ ((List.replicate maxSize c).isEmpty = true) := by
    simp only [List.isEmpty_iff, List.replicate_eq_nil_iff]
    omega
  have hcand : (if (List.replicate maxSize c).isEmpty then [c]
      else List.replicate maxSize c ++ [] ++ [c]) = List.replicate (maxSize + 1) c := by
    rw [if_neg hbe, List.append_nil, ← List.replicate_succ']
  rw [hcand, if_neg (by rw [List.length_replicate]; omega), if_neg hbe]
  have hcarry : takeRight overlap (List.replicate maxSize c) = List.replicate overlap c := by
    rw [takeRight, List.length_replicate, List.drop_replicate]
    congr 1
    omega
  rw [hcarry]
  have hcand2 : (if (List.replicate overlap c).isEmpty then [c]
      else List.replicate overlap c ++ [] ++ [c]) = List.replicate (overlap + 1) c := by
    rw [if_neg (by simp only [List.isEmpty_iff, List.replicate_eq_nil_iff]; omega),
      List.append_nil, ← List.replicate_succ']
  rw [hcand2, if_pos (by rw [List.length_replicate]; omega)]

/-- The chunker on the scenario input: exactly two chunk texts, of
lengths 1000 and 700. -/
theorem chunkTexts_scenario :
    chunkTexts 1000 200 [[]] (List.replicate 1500 'A')
      = [List.replicate 1000 'A', List.replicate 700 'A'] := by
  rw [chunkTexts]
  have hglue : glueFor (chosenSep [[]] (List.replicate 1500 'A')) = [] := rfl
  rw [hglue, splitPieces_scenario,
    show List.replicate 1500 (['A'] : Piece) = List.replicate (1000 + 500) ['A'] by
      norm_num,
    mergeLoop_grow_nil 1000 200 'A' 1000 500 (by omega),
    show (500 : Nat) = 499 + 1 from rfl,
    mergeLoop_overflow 1000 200 'A' 499 (by omega) (by omega),
    show List.replicate 499 (['A'] : Piece) = List.replicate (499 + 0) ['A'] from rfl,
    mergeLoop_grow 1000 200 'A' 499 0 201 (by omega),
    List.replicate_zero]
  simp only [mergeLoop]
  rw [if_neg (by simp only [List.isEmpty_iff, List.replicate_eq_nil_iff]; omega)]

/-- **C6**: chunking the text `"A" * 1500` with `maxSize = 1000`,
`overlap = 200` and character-level splitting yields exactly two
Segments, the first of length 1000 and the second of length 700, and the
second Segment's first 200 characters equal the first Segment's last 200
characters. -/
theorem c6_overlap_scenario :
    chunkSegments 1000 200 [[]] [] (List.replicate 1500 'A')
      = [⟨List.replicate 1000 'A', [], 0⟩, ⟨List.replicate 700 'A', [], 1⟩] ∧
    (List.replicate 1000 'A').length = 1000 ∧
    (List.replicate 700 'A').length = 700 ∧
    (List.replicate 700 'A').take 200 = takeRight 200 (List.replicate 1000 'A') := by
  refine ⟨?_, by rw [List.length_replicate], by rw [List.length_replicate], ?_⟩
  · rw [chunkSegments, chunkTexts_scenario]
    rfl
  · rw [List.take_replicate, takeRight, List.length_replicate, List.drop_replicate]
    norm_num

end Rag
